import Mathlib

/-!
Shallow embedding of the jpgconverter batch-conversion engine
(`src/jpgconverter/converter.py`, `config_data.py`, `progress.py`,
`worker.py`) and proofs about its claims.

The pixel-level codec calls are external collaborators; they are
abstracted as boolean outcome oracles (per item) or as tags naming
which converter function is dispatched. The filesystem is abstracted
as a directory value carrying its entries, each entry carrying the
attributes the source reads (path string, regular-file flag, stem,
suffix).
-/

namespace JpgConverter

/-- Result record of one task, mirroring the dataclass `TaskResult`
in progress.py (success, failed, skipped, all defaulting to 0). -/
structure TaskResult where
  success : Nat := 0
  failed : Nat := 0
  skipped : Nat := 0
deriving DecidableEq, Repr

/-- One directory entry as seen by the source: the attributes read by
find_files and _prepare_tasks (full path for ordering and identity,
is_file flag, stem, suffix). -/
structure FileEntry where
  path : String
  isFile : Bool
  stem : String
  suffix : String
deriving DecidableEq, Repr

/-- A directory: whether it exists, and its entries (iterdir). -/
structure Directory where
  dirExists : Bool
  entries : List FileEntry
deriving DecidableEq, Repr

/-- One planned work item, the triple (input file, output file, format)
built by TaskProcessor._prepare_tasks. -/
structure WorkItem where
  inp : String
  out : String
  fmt : String
deriving DecidableEq, Repr

/-- The extension map lookup `ext_map.get(input_format, set())` in
converter.find_files: logical format to its fixed case-variant
extension set. Unknown formats map to the empty set. -/
def ext_map_get (fmt : String) : List String :=
  if fmt = "jpg" then [".jpg", ".jpeg", ".JPG", ".JPEG"]
  else if fmt = "heic" then [".heic", ".HEIC", ".heif", ".HEIF"]
  else if fmt = "avif" then [".avif", ".AVIF"]
  else if fmt = "jxl" then [".jxl", ".JXL"]
  else []

/-- Lexicographic comparison of character lists by code point: the
ordering python uses on strings (and hence, componentwise, on the
paths python `sorted` compares). -/
def charsLe : List Char → List Char → Bool
  | [], _ => true
  | _ :: _, [] => false
  | a :: as, b :: bs => a.toNat < b.toNat || (a.toNat = b.toNat && charsLe as bs)

/-- Lexicographic string comparison by code point. -/
def strLe (a b : String) : Bool := charsLe a.toList b.toList

/-- The path ordering python `sorted` applies to discovered entries. -/
def pathRel (a b : FileEntry) : Prop := strLe a.path b.path = true

instance : DecidableRel pathRel :=
  fun a b => inferInstanceAs (Decidable (strLe a.path b.path = true))

/-- The lexicographic comparison is total. -/
theorem charsLe_total : ∀ as bs, charsLe as bs = true ∨ charsLe bs as = true
  | [], _ => Or.inl rfl
  | _ :: _, [] => Or.inr rfl
  | a :: as, b :: bs => by
    simp only [charsLe, Bool.or_eq_true, Bool.and_eq_true, decide_eq_true_eq]
    rcases Nat.lt_trichotomy a.toNat b.toNat with h | h | h
    · exact Or.inl (Or.inl h)
    · rcases charsLe_total as bs with h2 | h2
      · exact Or.inl (Or.inr ⟨h, h2⟩)
      · exact Or.inr (Or.inr ⟨h.symm, h2⟩)
    · exact Or.inr (Or.inl h)

/-- The lexicographic comparison is transitive. -/
theorem charsLe_trans : ∀ as bs cs, charsLe as bs = true → charsLe bs cs = true →
    charsLe as cs = true
  | [], _, _, _, _ => rfl
  | _ :: _, [], _, h, _ => by simp [charsLe] at h
  | _ :: _, _ :: _, [], _, h => by simp [charsLe] at h
  | a :: as, b :: bs, c :: cs, h1, h2 => by
    simp only [charsLe, Bool.or_eq_true, Bool.and_eq_true, decide_eq_true_eq] at h1 h2 ⊢
    rcases h1 with h1 | ⟨h1e, h1r⟩ <;> rcases h2 with h2 | ⟨h2e, h2r⟩
    · exact Or.inl (Nat.lt_trans h1 h2)
    · exact Or.inl (by omega)
    · exact Or.inl (by omega)
    · exact Or.inr ⟨by omega, charsLe_trans as bs cs h1r h2r⟩

instance : IsTotal FileEntry pathRel := ⟨fun a b => charsLe_total a.path.toList b.path.toList⟩

instance : IsTrans FileEntry pathRel := ⟨fun _ _ _ h1 h2 => charsLe_trans _ _ _ h1 h2⟩

/-- converter.find_files: empty when the directory does not exist,
otherwise the regular files whose suffix is in the format's extension
set, sorted by path. -/
def find_files (d : Directory) (input_format : String) : List FileEntry :=
  if !d.dirExists then []
  else
    ((d.entries.filter fun f => f.isFile && decide (f.suffix ∈ ext_map_get input_format)).insertionSort
      pathRel)

/-- TaskProcessor._find_files: in auto mode, the concatenation of the
per-format discoveries for heic, avif, jxl, deduplicated (python set)
and re-sorted; otherwise a single find_files call. -/
def find_files_task (d : Directory) (input_format : String) : List FileEntry :=
  if input_format = "auto" then
    (((find_files d "heic" ++ find_files d "avif") ++ find_files d "jxl").dedup.insertionSort
      pathRel)
  else find_files d input_format

/-- The dictionary lookup `ext_map.get(fmt, default)` in
converter.get_output_ext. -/
def ext_map_out (fmt deflt : String) : String :=
  if fmt = "jpg" then ".jpg"
  else if fmt = "heic" then ".heic"
  else if fmt = "avif" then ".avif"
  else if fmt = "jxl" then ".jxl"
  else deflt

/-- converter.get_output_ext: when output_format is truthy it wins
(defaulting to "." + output_format for unknown names); otherwise a
modern input format yields ".jpg"; otherwise the input format's own
extension, defaulting to ".out". -/
def get_output_ext (input_format output_format : String) : String :=
  if output_format ≠ "" then ext_map_out output_format ("." ++ output_format)
  else if input_format = "heic" ∨ input_format = "avif" ∨ input_format = "jxl" then ".jpg"
  else ext_map_out input_format ".out"

/-- The task configuration dataclass TaskConfig in config_data.py.
output_path is optional (None modelled as none); empty strings are
falsy exactly as in python. -/
structure TaskConfig where
  name : String := "未命名"
  input_path : String := ""
  output_path : Option String := none
  input_format : String := ""
  output_format : String := ""
  quality : Nat := 90
  skip_existing : Bool := true
  enabled : Bool := true
deriving DecidableEq, Repr

/-- Python truthiness of the optional output_path string. -/
def truthyPath : Option String → Bool
  | none => false
  | some s => s ≠ ""

/-- TaskConfig.resolve_output_path: explicit truthy output_path wins;
otherwise input_path / ("converted_" + (output_format or "heic")). -/
def resolve_output_path (c : TaskConfig) : String :=
  if truthyPath c.output_path then c.output_path.getD ""
  else c.input_path ++ "/converted_" ++ (if c.output_format = "" then "heic" else c.output_format)

/-- TaskConfig.resolve_input_format: explicit nonempty input_format
wins; otherwise "auto" when output_format is "jpg", else "jpg". -/
def resolve_input_format (c : TaskConfig) : String :=
  if c.input_format ≠ "" then c.input_format
  else if c.output_format = "jpg" then "auto"
  else "jpg"

/-- TaskConfig.resolve_output_format: explicit nonempty output_format
wins; otherwise "heic" when the resolved input format is "jpg", else
"jpg". -/
def resolve_output_format (c : TaskConfig) : String :=
  if c.output_format ≠ "" then c.output_format
  else if resolve_input_format c = "jpg" then "heic"
  else "jpg"

/-- TaskConfig.conversion_direction: the description the program
prints for the direction of a task. -/
def conversion_direction (c : TaskConfig) : String :=
  if resolve_input_format c = "auto" then "自动 (HEIC/AVIF/JXL → JPG)"
  else if resolve_input_format c = "jpg" then "JPG → " ++ (resolve_output_format c).toUpper
  else (resolve_input_format c).toUpper ++ " → JPG"

/-- Python str.lstrip "." on a suffix string: drop leading dots. -/
def lstripDot (s : String) : String :=
  ((s.toList.dropWhile fun ch => ch = '.').asString)

/-- TaskProcessor._prepare_tasks: for each discovered file compute the
output path from the stem and the resolved extension; drop it when
skip_existing holds and the output already exists (existence is an
oracle over paths); the per-item format is output_format, except in
auto mode where it is the file suffix with leading dots stripped. -/
def prepare_tasks (files : List FileEntry) (output_dir : String)
    (input_format output_format : String) (skip_existing : Bool)
    (outExists : String → Bool) : List WorkItem :=
  let out_ext := get_output_ext input_format output_format
  files.foldl
    (fun ts f =>
      let out_path := output_dir ++ "/" ++ f.stem ++ out_ext
      if skip_existing && outExists out_path then ts
      else ts ++ [⟨f.path, out_path,
        if input_format ≠ "auto" then output_format else lstripDot f.suffix⟩])
    []

/-- Tag for the two codec collaborator functions that
TaskProcessor._convert_file can call. -/
inductive ConvFn where
  | convert_to_modern
  | convert_to_jpg
deriving DecidableEq, Repr

/-- The dispatch of TaskProcessor._convert_file: items whose format is
heic, avif or jxl go to converter.convert_to_modern, all others to
converter.convert_to_jpg. -/
def convert_file_dispatch (fmt : String) : ConvFn :=
  if fmt = "heic" ∨ fmt = "avif" ∨ fmt = "jxl" then ConvFn.convert_to_modern
  else ConvFn.convert_to_jpg

/-- worker.is_shutdown: reads the module-global shutdown flag (the
global is passed explicitly to the model). -/
def is_shutdown (shutdownFlag : Bool) : Bool := shutdownFlag

/-- The progress bar state: total and current counters
(progress.ProgressBar.__init__ sets current to 0). -/
structure ProgressBar where
  total : Nat
  current : Nat
deriving DecidableEq, Repr

/-- Fresh progress bar with current = 0. -/
def ProgressBar.new (total : Nat) : ProgressBar := ⟨total, 0⟩

/-- ProgressBar.update: add n to current (the subsequent render is
modelled separately by ProgressBar.display). -/
def ProgressBar.update (p : ProgressBar) (n : Nat) : ProgressBar :=
  { p with current := p.current + n }

/-- ProgressBar.close: force current to total. -/
def ProgressBar.close (p : ProgressBar) : ProgressBar :=
  { p with current := p.total }

/-- The data computed by one render of ProgressBar._display. -/
structure DisplayData where
  percentage : ℚ
  eta : ℚ
  filledLength : Nat
deriving DecidableEq, Repr

/-- ProgressBar._display: renders nothing when total = 0 (the guard
returns before any division); otherwise computes the percentage, the
linear-extrapolation eta (0 while current = 0) and the filled bar
length. elapsed is the wall-clock input. -/
def ProgressBar.display (p : ProgressBar) (elapsed : ℚ) : Option DisplayData :=
  if p.total = 0 then none
  else
    some
      { percentage := (p.current : ℚ) / (p.total : ℚ) * 100
        eta :=
          if 0 < p.current then elapsed * ((p.total : ℚ) - (p.current : ℚ)) / (p.current : ℚ)
          else 0
        filledLength := 30 * p.current / p.total }

/-- The successive progress-bar states produced by a sequence of
update calls starting from a fresh bar, followed by the close call:
the life of one tracker. -/
def barStates (total : Nat) (ns : List Nat) : List ProgressBar :=
  ns.scanl ProgressBar.update (ProgressBar.new total)

/-- All states over the life of a tracker, the final close included. -/
def barRun (total : Nat) (ns : List Nat) : List ProgressBar :=
  barStates total ns ++ [((barStates total ns).getLastD (ProgressBar.new total)).close]

/-- The batch partition in TaskProcessor._execute_tasks_batch:
`[tasks[i:i+batch_size] for i in range(0, len(tasks), batch_size)]`.
range(0, n, B) has ceil(n / B) indices 0, B, 2B, ...; slice
`tasks[i:i+B]` is take B after drop i. -/
def sliceBatches (B : Nat) (l : List WorkItem) : List (List WorkItem) :=
  (List.range ((l.length + B - 1) / B)).map fun k => (l.drop (k * B)).take B

/-- TaskProcessor._process_batch: sequential loop over the items of a
batch; each item contributes 1 to success when the converter succeeds
and 1 to failed otherwise (a raising item is caught and counted
failed, so the outcome oracle already folds exceptions into false). -/
def processBatch (convOk : WorkItem → Bool) (batch : List WorkItem) : Nat × Nat :=
  batch.foldl
    (fun acc it => if convOk it then (acc.1 + 1, acc.2) else (acc.1, acc.2 + 1))
    (0, 0)

/-- The per-completed-batch accounting in _execute_tasks_batch: a batch
whose execution raised contributes its full length to failed; a batch
that returned contributes its per-item counts. -/
def batchStep (convOk : WorkItem → Bool) (batchRaises : List WorkItem → Bool)
    (r : TaskResult) (batch : List WorkItem) : TaskResult :=
  if batchRaises batch then { r with failed := r.failed + batch.length }
  else
    let br := processBatch convOk batch
    { r with success := r.success + br.1, failed := r.failed + br.2 }

/-- Drain loop of _execute_tasks_batch over completed batches in the
given completion order. -/
def runBatches (convOk : WorkItem → Bool) (batchRaises : List WorkItem → Bool)
    (bs : List (List WorkItem)) : TaskResult :=
  bs.foldl (batchStep convOk batchRaises) {}

/-- TaskProcessor._execute_tasks_batch: partition into batches, submit
every batch, aggregate the per-batch outcomes (canonical submission
order; completion-order invariance is proved separately). -/
def executeTasksBatch (B : Nat) (convOk : WorkItem → Bool)
    (batchRaises : List WorkItem → Bool) (tasks : List WorkItem) : TaskResult :=
  runBatches convOk batchRaises (sliceBatches B tasks)

/-! ## Claim C1: shutdown flag and batch submission -/

/-- C1: the claim says the batch scheduler consults the shutdown flag
before submitting each batch, so that setting the flag before any
batch is dispatched yields success = 0 and failed = 0. The code of
TaskProcessor._execute_tasks_batch never reads worker.is_shutdown (the
model of the scheduler has no dependence on the flag at all): with the
flag set, a task of one succeeding item still submits its batch and
returns success = 1, failed = 0. -/
theorem shutdown_flag_never_consulted_by_scheduler :
    is_shutdown true = true ∧
    executeTasksBatch 50 (fun _ => true) (fun _ => false)
        [{ inp := "d/a.heic", out := "out/a.jpg", fmt := "heic" }]
      = { success := 1, failed := 0, skipped := 0 } := by
  exact ⟨rfl, by decide⟩

/-! ## Claim C2: output extension when converting from a modern format -/

/-- C2 counterexample: a task with input_format heic and output_format
avif resolves to effective input format heic (a modern format), yet
the resolved output extension computed by the planning pipeline
(get_output_ext applied to the resolved formats, as in
TaskProcessor.process and _prepare_tasks) is ".avif", not ".jpg": a
truthy output_format field takes priority in get_output_ext. -/
theorem modern_input_ext_counterexample :
    resolve_input_format { input_format := "heic", output_format := "avif" } = "heic" ∧
    get_output_ext
        (resolve_input_format { input_format := "heic", output_format := "avif" })
        (resolve_output_format { input_format := "heic", output_format := "avif" })
      = ".avif" ∧ (".avif" : String) ≠ ".jpg" := by
  refine ⟨rfl, rfl, by decide⟩

/-- C2 amended: for a task whose effective input format is modern
(heic, avif or jxl), the resolved output extension is ".jpg" whenever
the output_format field is empty or "jpg"; a nonempty non-baseline
output_format takes priority instead. -/
theorem modern_input_ext_amended (c : TaskConfig)
    (hmod : resolve_input_format c = "heic" ∨ resolve_input_format c = "avif" ∨
      resolve_input_format c = "jxl")
    (hout : c.output_format = "" ∨ c.output_format = "jpg") :
    get_output_ext (resolve_input_format c) (resolve_output_format c) = ".jpg" := by
  have hne : resolve_input_format c ≠ "jpg" := by
    rcases hmod with h | h | h <;> rw [h] <;> decide
  have ho : resolve_output_format c = "jpg" := by
    rcases hout with h | h
    · unfold resolve_output_format
      rw [h]
      simp [hne]
    · unfold resolve_output_format
      rw [h]
      simp
  rw [ho]
  unfold get_output_ext
  simp [ext_map_out]

/-- C2 witness: a task with input_format heic and no output_format
resolves to the ".jpg" extension. -/
theorem modern_input_ext_amended_witness :
    get_output_ext (resolve_input_format { input_format := "heic" })
        (resolve_output_format { input_format := "heic" }) = ".jpg" :=
  modern_input_ext_amended { input_format := "heic" } (Or.inl rfl) (Or.inl rfl)

/-! ## Claim C3: conversion direction in auto mode -/

/-- C3: the claim (and the printed conversion_direction) says every
item of an auto-mode task is converted to the baseline format. The
code of TaskProcessor._convert_file dispatches per item on the item
format, which in auto mode is the file suffix with dots stripped: a
".heic" file dispatches convert_to_modern (the wrong direction) while
a ".HEIC" file dispatches convert_to_jpg, so the direction is neither
per-task-constant nor to-baseline, contradicting the direction string
the program itself prints for the task. -/
theorem auto_mode_direction_bug :
    (prepare_tasks
        [⟨"d/a.heic", true, "a", ".heic"⟩, ⟨"d/b.HEIC", true, "b", ".HEIC"⟩]
        "out" (resolve_input_format { input_format := "auto" })
        (resolve_output_format { input_format := "auto" }) false (fun _ => false)).map
        (fun w => convert_file_dispatch w.fmt)
      = [ConvFn.convert_to_modern, ConvFn.convert_to_jpg] ∧
    conversion_direction { input_format := "auto" } = "自动 (HEIC/AVIF/JXL → JPG)" := by
  exact ⟨rfl, rfl⟩

/-! ## Claim C10: default output path from the raw output_format field -/

/-- C10: when output_path is unset (None or empty), resolve_output_path
returns input_path / ("converted_" + output_format) using the raw
output_format field with "heic" as fallback for the empty field; in
particular a task with input_format auto and no output_format gets a
converted_heic directory while its resolved output format is "jpg". -/
theorem resolve_output_path_unset (c : TaskConfig)
    (h : c.output_path = none ∨ c.output_path = some "") :
    resolve_output_path c
        = c.input_path ++ "/converted_"
            ++ (if c.output_format = "" then "heic" else c.output_format) ∧
    (c.input_format = "auto" → c.output_format = "" →
      resolve_output_path c = c.input_path ++ "/converted_" ++ "heic" ∧
        resolve_output_format c = "jpg") := by
  have hmain : resolve_output_path c
      = c.input_path ++ "/converted_"
          ++ (if c.output_format = "" then "heic" else c.output_format) := by
    unfold resolve_output_path truthyPath
    rcases h with h | h <;> rw [h] <;> simp
  refine ⟨hmain, fun h1 h2 => ⟨?_, ?_⟩⟩
  · rw [hmain, h2]
    simp
  · unfold resolve_output_format resolve_input_format
    rw [h1, h2]
    simp

/-- C10 witness: the default task with input_format auto resolves its
output directory to converted_heic while its output format resolves to
jpg. -/
theorem resolve_output_path_unset_witness :
    resolve_output_path ({ input_format := "auto" } : TaskConfig)
        = ({ input_format := "auto" } : TaskConfig).input_path ++ "/converted_" ++ "heic" ∧
    resolve_output_format ({ input_format := "auto" } : TaskConfig) = "jpg" :=
  (resolve_output_path_unset { input_format := "auto" } (Or.inl rfl)).2 rfl rfl

/-! ## Claims C8 and C9: file discovery -/

/-- C8: find_files on a nonexistent directory is empty (a total
function, so it never raises); on an existing directory it is a
permutation of exactly the regular entries whose suffix is in the
format's fixed extension set, it is sorted by path, and the heic
extension set is the fixed case-variant set. -/
theorem find_files_spec (d : Directory) (fmt : String) :
    (d.dirExists = false → find_files d fmt = []) ∧
    List.Pairwise pathRel (find_files d fmt) ∧
    (d.dirExists = true →
      (find_files d fmt).Perm
        (d.entries.filter fun f => f.isFile && decide (f.suffix ∈ ext_map_get fmt))) ∧
    ext_map_get "heic" = [".heic", ".HEIC", ".heif", ".HEIF"] := by
  refine ⟨fun h => ?_, ?_, fun h => ?_, rfl⟩
  · unfold find_files
    rw [h]
    rfl
  · unfold find_files
    rcases d.dirExists with _ | _
    · simp
    · simpa using List.sorted_insertionSort pathRel
        (d.entries.filter fun f => f.isFile && decide (f.suffix ∈ ext_map_get fmt))
  · unfold find_files
    rw [h]
    simpa using List.perm_insertionSort pathRel _

/-- C8 witness: discovery on a concrete missing directory is empty,
and discovery on a concrete existing directory is a permutation of its
matching regular entries. -/
theorem find_files_spec_witness :
    find_files ⟨false, [⟨"d/a.heic", true, "a", ".heic"⟩]⟩ "heic" = [] ∧
    (find_files
        ⟨true, [⟨"d/b.heif", true, "b", ".heif"⟩, ⟨"d/a.heic", true, "a", ".heic"⟩,
          ⟨"d/x.txt", true, "x", ".txt"⟩, ⟨"d/sub", false, "sub", ""⟩]⟩ "heic").Perm
      ((([⟨"d/b.heif", true, "b", ".heif"⟩, ⟨"d/a.heic", true, "a", ".heic"⟩,
          ⟨"d/x.txt", true, "x", ".txt"⟩, ⟨"d/sub", false, "sub", ""⟩] : List FileEntry)).filter
        fun f => f.isFile && decide (f.suffix ∈ ext_map_get "heic")) :=
  ⟨(find_files_spec ⟨false, [⟨"d/a.heic", true, "a", ".heic"⟩]⟩ "heic").1 rfl,
    (find_files_spec
      ⟨true, [⟨"d/b.heif", true, "b", ".heif"⟩, ⟨"d/a.heic", true, "a", ".heic"⟩,
        ⟨"d/x.txt", true, "x", ".txt"⟩, ⟨"d/sub", false, "sub", ""⟩]⟩ "heic").2.2.1 rfl⟩

/-- C9: auto discovery is the deduplicated union of the heic, avif and
jxl discoveries, re-sorted: membership is membership in one of the
three per-format results, the output is sorted by path and has no
duplicates; on the concrete directory holding a.heic, b.avif, c.jxl
with a duplicated a.heic entry the result is exactly the three
distinct files in sorted order. -/
theorem auto_discovery_spec (d : Directory) :
    (∀ f, f ∈ find_files_task d "auto" ↔
        f ∈ find_files d "heic" ∨ f ∈ find_files d "avif" ∨ f ∈ find_files d "jxl") ∧
    List.Pairwise pathRel (find_files_task d "auto") ∧
    (find_files_task d "auto").Nodup ∧
    find_files_task
        ⟨true, [⟨"d/a.heic", true, "a", ".heic"⟩, ⟨"d/b.avif", true, "b", ".avif"⟩,
          ⟨"d/c.jxl", true, "c", ".jxl"⟩, ⟨"d/a.heic", true, "a", ".heic"⟩]⟩ "auto"
      = [⟨"d/a.heic", true, "a", ".heic"⟩, ⟨"d/b.avif", true, "b", ".avif"⟩,
          ⟨"d/c.jxl", true, "c", ".jxl"⟩] := by
  have heq : find_files_task d "auto"
      = ((find_files d "heic" ++ find_files d "avif") ++ find_files d "jxl").dedup.insertionSort
          pathRel := by
    unfold find_files_task
    rw [if_pos rfl]
  refine ⟨fun f => ?_, ?_, ?_, by decide⟩
  · rw [heq]
    simp [or_assoc]
  · rw [heq]
    exact List.sorted_insertionSort pathRel _
  · rw [heq]
    exact (List.perm_insertionSort pathRel _).symm.nodup (List.nodup_dedup _)

/-! ## Claim C6: progress tracker -/

/-- Every state reached by a run of updates stays between the starting
current and the starting current plus the sum of the increments, and
keeps the starting total. -/
theorem mem_scanl_update : ∀ (ns : List Nat) (p : ProgressBar) (q : ProgressBar),
    q ∈ ns.scanl ProgressBar.update p →
    p.current ≤ q.current ∧ q.current ≤ p.current + ns.sum ∧ q.total = p.total
  | [], p, q, h => by
    simp only [List.scanl, List.mem_singleton] at h
    subst h
    simp
  | n :: ns, p, q, h => by
    rw [List.scanl_cons, List.singleton_append] at h
    rcases List.mem_cons.mp h with h | h
    · subst h
      simp
    · have ih := mem_scanl_update ns (p.update n) q h
      simp only [ProgressBar.update] at ih
      simp only [List.sum_cons]
      exact ⟨by omega, by omega, ih.2.2⟩

/-- The sequence of currents along a run of updates is
non-decreasing. -/
theorem pairwise_scanl_update : ∀ (ns : List Nat) (p : ProgressBar),
    List.Pairwise (fun a b => a.current ≤ b.current) (ns.scanl ProgressBar.update p)
  | [], _ => by simp
  | n :: ns, p => by
    rw [List.scanl_cons, List.singleton_append]
    refine List.Pairwise.cons (fun q hq => ?_) (pairwise_scanl_update ns (p.update n))
    have hm := (mem_scanl_update ns (p.update n) q hq).1
    simp only [ProgressBar.update] at hm
    omega

/-- The last state of a run of updates has accumulated the whole sum
of increments and keeps the starting total. -/
theorem getLastD_scanl_update : ∀ (ns : List Nat) (p d : ProgressBar),
    (ns.scanl ProgressBar.update p).getLastD d
      = { total := p.total, current := p.current + ns.sum }
  | [], p, d => by
    cases p
    simp [List.scanl]
  | n :: ns, p, d => by
    rw [List.scanl_cons, List.singleton_append, List.getLastD_cons,
      getLastD_scanl_update ns (p.update n) p]
    simp only [ProgressBar.update, List.sum_cons]
    congr 1
    omega

/-- C6 amended: when the update increments sum to at most the total,
the current counter is non-decreasing over the whole life of the
tracker (updates followed by the final close); the state after close
has current = total unconditionally; and a tracker with total = 0
never renders (its display is always none, so the guarded divisions
are never reached). The claim as stated, without the bound on the
increments, is refuted by progress_monotone_counterexample: the final
close would decrease an overshooting current. -/
theorem progress_monotone_amended (total : Nat) (ns : List Nat) (h : ns.sum ≤ total) :
    List.Pairwise (fun p q => p.current ≤ q.current) (barRun total ns) ∧
    ((barRun total ns).getLastD (ProgressBar.new total)).current = total ∧
    (total = 0 → ∀ p ∈ barRun total ns, ∀ e : ℚ, p.display e = none) := by
  have hclose :
      (((ns.scanl ProgressBar.update (ProgressBar.new total)).getLastD
        (ProgressBar.new total)).close).current = total := by
    rw [getLastD_scanl_update]
    rfl
  refine ⟨?_, ?_, ?_⟩
  · unfold barRun barStates
    rw [List.pairwise_append]
    refine ⟨pairwise_scanl_update ns (ProgressBar.new total),
      List.pairwise_singleton _ _, fun a ha b hb => ?_⟩
    rcases List.mem_singleton.mp hb with rfl
    have hm := mem_scanl_update ns (ProgressBar.new total) a ha
    simp only [ProgressBar.new] at hm
    rw [hclose]
    omega
  · unfold barRun barStates
    rw [List.getLastD_concat]
    exact hclose
  · intro h0 p hp e
    have ht : p.total = 0 := by
      unfold barRun barStates at hp
      rcases List.mem_append.mp hp with hp | hp
      · have := (mem_scanl_update ns (ProgressBar.new total) p hp).2.2
        simpa [ProgressBar.new, h0] using this
      · rcases List.mem_singleton.mp hp with rfl
        rw [getLastD_scanl_update]
        simpa [ProgressBar.close, ProgressBar.new] using h0
    unfold ProgressBar.display
    rw [if_pos ht]

/-- C6 counterexample: with total 1, a single update of 2 followed by
close yields the current trace 0, 2, 1, which is not non-decreasing:
the claim quantifies over all non-negative increments but close can
decrease an overshooting current. -/
theorem progress_monotone_counterexample :
    ¬ List.Pairwise (fun p q => p.current ≤ q.current) (barRun 1 [2]) := by
  decide

/-- C6 witness: a concrete in-bounds run is monotone and ends at the
total, and a total-0 tracker never renders. -/
theorem progress_monotone_witness :
    List.Pairwise (fun p q => p.current ≤ q.current) (barRun 10 [3, 4]) ∧
    ((barRun 10 [3, 4]).getLastD (ProgressBar.new 10)).current = 10 ∧
    (∀ p ∈ barRun 0 [0], ∀ e : ℚ, p.display e = none) :=
  ⟨(progress_monotone_amended 10 [3, 4] (by decide)).1,
    (progress_monotone_amended 10 [3, 4] (by decide)).2.1,
    (progress_monotone_amended 0 [0] (by decide)).2.2 rfl⟩

/-! ## Claims C4, C5, C7: batch partition and aggregation -/

/-- The partition of the empty work list is empty. -/
theorem sliceBatches_nil (B : Nat) : sliceBatches B [] = [] := by
  unfold sliceBatches
  have h0 : (([] : List WorkItem).length + B - 1) / B = 0 := by
    rcases B with _ | b
    · simp
    · exact Nat.div_eq_of_lt (by simp)
  rw [h0]
  rfl

/-- Unfolding of the partition on a nonempty list: first the first B
items, then the partition of the rest. -/
theorem sliceBatches_cons {B : Nat} (hB : 1 ≤ B) {l : List WorkItem} (hl : l ≠ []) :
    sliceBatches B l = l.take B :: sliceBatches B (l.drop B) := by
  have hn : 1 ≤ l.length := List.length_pos.mpr hl
  have harith : (l.length + B - 1) / B = ((l.drop B).length + B - 1) / B + 1 := by
    rw [List.length_drop]
    have h1 : l.length + B - 1 = (l.length - 1) + B := by omega
    rw [h1, Nat.add_div_right _ (by omega)]
    rcases Nat.le_total B l.length with h | h
    · have h2 : l.length - B + B - 1 = l.length - 1 := by omega
      rw [h2]
    · have h2 : l.length - B + B - 1 = B - 1 := by omega
      rw [h2, Nat.div_eq_of_lt (by omega), Nat.div_eq_of_lt (by omega)]
  unfold sliceBatches
  rw [harith, List.range_succ_eq_map, List.map_cons, List.map_map]
  congr 1
  · rw [Nat.zero_mul, List.drop_zero]
  · apply List.map_congr_left
    intro k _
    show (l.drop ((k + 1) * B)).take B = ((l.drop B).drop (k * B)).take B
    rw [List.drop_drop]
    congr 2
    have : (k + 1) * B = k * B + B := by ring
    omega

/-- Structure of the partition, by induction on a length bound: the
batches concatenate back to the list, every batch is nonempty of
length at most B, and every batch but the last has length exactly B. -/
theorem sliceBatches_structure (B : Nat) (hB : 1 ≤ B) :
    ∀ (n : Nat) (l : List WorkItem), l.length ≤ n →
      (sliceBatches B l).flatten = l ∧
      (∀ b ∈ sliceBatches B l, b.length ≤ B ∧ b ≠ []) ∧
      (∀ i : Nat, i + 1 < (sliceBatches B l).length →
        ((sliceBatches B l).getD i []).length = B) := by
  intro n
  induction n with
  | zero =>
    intro l hl
    have : l = [] := List.length_eq_zero.mp (Nat.le_zero.mp hl)
    subst this
    rw [sliceBatches_nil]
    exact ⟨rfl, by simp, by simp⟩
  | succ n ih =>
    intro l hl
    by_cases hnil : l = []
    · subst hnil
      rw [sliceBatches_nil]
      exact ⟨rfl, by simp, by simp⟩
    · have hpos := List.length_pos.mpr hnil
      have hlen : (l.drop B).length ≤ n := by
        rw [List.length_drop]
        omega
      obtain ⟨ih1, ih2, ih3⟩ := ih (l.drop B) hlen
      rw [sliceBatches_cons hB hnil]
      refine ⟨?_, ?_, ?_⟩
      · rw [List.flatten_cons, ih1, List.take_append_drop]
      · intro b hb
        rcases List.mem_cons.mp hb with rfl | hb
        · refine ⟨List.length_take_le B l, fun hc => ?_⟩
          have hlc : (l.take B).length = 0 := by rw [hc]; rfl
          rw [List.length_take] at hlc
          omega
        · exact ih2 b hb
      · intro i hi
        rcases i with _ | j
        · simp only [List.length_cons] at hi
          have htail : sliceBatches B (l.drop B) ≠ [] := by
            intro hc
            rw [hc] at hi
            simp at hi
          have hdrop : l.drop B ≠ [] := by
            intro hc
            rw [hc, sliceBatches_nil] at htail
            exact htail rfl
          have hBlt : B < l.length := by
            by_contra hc
            push_neg at hc
            exact hdrop (List.drop_eq_nil_of_le hc)
          rw [List.getD_cons_zero, List.length_take]
          omega
        · simp only [List.length_cons] at hi
          rw [List.getD_cons_succ]
          exact ih3 j (by omega)

/-- C5: for batch_size B at least 1, the scheduler partition is
consecutive, ordered, non-overlapping and exhaustive (the batches
concatenate back to the work list, so every item belongs to exactly
one batch), every batch has at most B items, every batch but the last
has exactly B items, and the empty work list yields no batches and an
immediate empty result. -/
theorem batch_partition_spec (l : List WorkItem) (B : Nat) (hB : 1 ≤ B) :
    (sliceBatches B l).flatten = l ∧
    (∀ b ∈ sliceBatches B l, b.length ≤ B) ∧
    (∀ i : Nat, i + 1 < (sliceBatches B l).length →
      ((sliceBatches B l).getD i []).length = B) ∧
    sliceBatches B ([] : List WorkItem) = [] ∧
    (∀ convOk batchRaises,
      executeTasksBatch B convOk batchRaises []
        = { success := 0, failed := 0, skipped := 0 }) := by
  obtain ⟨h1, h2, h3⟩ := sliceBatches_structure B hB l.length l le_rfl
  refine ⟨h1, fun b hb => (h2 b hb).1, h3, sliceBatches_nil B, fun convOk batchRaises => ?_⟩
  unfold executeTasksBatch
  rw [sliceBatches_nil]
  rfl

/-- C5 witness: three items with batch size 2 partition into a pair
and a singleton that concatenate back, and the empty list yields the
empty result. -/
theorem batch_partition_spec_witness :
    (sliceBatches 2 [⟨"a", "oa", "heic"⟩, ⟨"b", "ob", "heic"⟩, ⟨"c", "oc", "heic"⟩]).flatten
      = [⟨"a", "oa", "heic"⟩, ⟨"b", "ob", "heic"⟩, ⟨"c", "oc", "heic"⟩] ∧
    executeTasksBatch 2 (fun _ => true) (fun _ => false) []
      = { success := 0, failed := 0, skipped := 0 } :=
  ⟨(batch_partition_spec [⟨"a", "oa", "heic"⟩, ⟨"b", "ob", "heic"⟩, ⟨"c", "oc", "heic"⟩] 2
      (by decide)).1,
    (batch_partition_spec [⟨"a", "oa", "heic"⟩, ⟨"b", "ob", "heic"⟩, ⟨"c", "oc", "heic"⟩] 2
      (by decide)).2.2.2.2 (fun _ => true) (fun _ => false)⟩

/-- Success contribution of one completed batch to the task result. -/
def batchSuccessOf (convOk : WorkItem → Bool) (batchRaises : List WorkItem → Bool)
    (b : List WorkItem) : Nat :=
  if batchRaises b then 0 else (processBatch convOk b).1

/-- Failure contribution of one completed batch to the task result. -/
def batchFailedOf (convOk : WorkItem → Bool) (batchRaises : List WorkItem → Bool)
    (b : List WorkItem) : Nat :=
  if batchRaises b then b.length else (processBatch convOk b).2

/-- The item loop counts every item exactly once. -/
theorem processBatch_foldl_add (convOk : WorkItem → Bool) :
    ∀ (b : List WorkItem) (acc : Nat × Nat),
      (b.foldl
          (fun acc it => if convOk it then (acc.1 + 1, acc.2) else (acc.1, acc.2 + 1)) acc).1
        + (b.foldl
            (fun acc it => if convOk it then (acc.1 + 1, acc.2) else (acc.1, acc.2 + 1)) acc).2
        = acc.1 + acc.2 + b.length
  | [], acc => by simp
  | it :: b, acc => by
    rw [List.foldl_cons]
    rw [processBatch_foldl_add convOk b]
    by_cases h : convOk it = true
    · rw [if_pos h]
      simp only [List.length_cons]
      omega
    · rw [if_neg h]
      simp only [List.length_cons]
      omega

/-- The success and failed counts of one batch sum to its length. -/
theorem processBatch_add (convOk : WorkItem → Bool) (b : List WorkItem) :
    (processBatch convOk b).1 + (processBatch convOk b).2 = b.length := by
  unfold processBatch
  rw [processBatch_foldl_add]
  simp

/-- Unrolling of the drain loop: the accumulated result is the running
sums of the per-batch contributions. -/
theorem foldl_batchStep (convOk : WorkItem → Bool) (batchRaises : List WorkItem → Bool) :
    ∀ (bs : List (List WorkItem)) (r : TaskResult),
      bs.foldl (batchStep convOk batchRaises) r
        = { success := r.success + (bs.map (batchSuccessOf convOk batchRaises)).sum,
            failed := r.failed + (bs.map (batchFailedOf convOk batchRaises)).sum,
            skipped := r.skipped }
  | [], r => by simp
  | b :: bs, r => by
    rw [List.foldl_cons, foldl_batchStep convOk batchRaises bs]
    unfold batchStep
    by_cases hb : batchRaises b = true
    · have e1 : batchSuccessOf convOk batchRaises b = 0 := by
        unfold batchSuccessOf
        rw [if_pos hb]
      have e2 : batchFailedOf convOk batchRaises b = b.length := by
        unfold batchFailedOf
        rw [if_pos hb]
      rw [if_pos hb]
      simp only [List.map_cons, List.sum_cons, e1, e2, TaskResult.mk.injEq]
      refine ⟨by omega, by omega, trivial⟩
    · have e1 : batchSuccessOf convOk batchRaises b = (processBatch convOk b).1 := by
        unfold batchSuccessOf
        rw [if_neg hb]
      have e2 : batchFailedOf convOk batchRaises b = (processBatch convOk b).2 := by
        unfold batchFailedOf
        rw [if_neg hb]
      rw [if_neg hb]
      simp only [List.map_cons, List.sum_cons, e1, e2, TaskResult.mk.injEq]
      refine ⟨by omega, by omega, trivial⟩

/-- The drain loop computes the commutative sums of the per-batch
contributions (skipped is untouched). -/
theorem runBatches_eq (convOk : WorkItem → Bool) (batchRaises : List WorkItem → Bool)
    (bs : List (List WorkItem)) :
    runBatches convOk batchRaises bs
      = { success := (bs.map (batchSuccessOf convOk batchRaises)).sum,
          failed := (bs.map (batchFailedOf convOk batchRaises)).sum,
          skipped := 0 } := by
  unfold runBatches
  rw [foldl_batchStep]
  simp

/-- Each batch contributes exactly its length to success + failed. -/
theorem batch_contrib_sum (convOk : WorkItem → Bool) (batchRaises : List WorkItem → Bool)
    (b : List WorkItem) :
    batchSuccessOf convOk batchRaises b + batchFailedOf convOk batchRaises b = b.length := by
  unfold batchSuccessOf batchFailedOf
  by_cases hb : batchRaises b
  · simp [hb]
  · simp [hb, processBatch_add]

/-- Summing the per-batch contributions over any batch list counts
every item of every batch. -/
theorem sum_contrib (convOk : WorkItem → Bool) (batchRaises : List WorkItem → Bool) :
    ∀ L : List (List WorkItem),
      (L.map (batchSuccessOf convOk batchRaises)).sum
        + (L.map (batchFailedOf convOk batchRaises)).sum
        = (L.map List.length).sum
  | [] => rfl
  | b :: L => by
    simp only [List.map_cons, List.sum_cons]
    have h1 := batch_contrib_sum convOk batchRaises b
    have h2 := sum_contrib convOk batchRaises L
    omega

/-- C4: for any work list, any batch size at least 1, and any
completion order (any permutation of the submitted batches), the
scheduler result satisfies success + failed = number of work items
(skipped excluded, it stays 0), and the whole result equals the
result in submission order: the totals are invariant under the
completion order, wholesale batch failures included. -/
theorem batch_totals_order_invariant (tasks : List WorkItem) (B : Nat) (hB : 1 ≤ B)
    (convOk : WorkItem → Bool) (batchRaises : List WorkItem → Bool)
    (bs : List (List WorkItem)) (hperm : bs.Perm (sliceBatches B tasks)) :
    (runBatches convOk batchRaises bs).success + (runBatches convOk batchRaises bs).failed
      = tasks.length ∧
    runBatches convOk batchRaises bs = executeTasksBatch B convOk batchRaises tasks := by
  have hjoin := (sliceBatches_structure B hB tasks.length tasks le_rfl).1
  have hs := (hperm.map (batchSuccessOf convOk batchRaises)).sum_eq
  have hf := (hperm.map (batchFailedOf convOk batchRaises)).sum_eq
  constructor
  · rw [runBatches_eq]
    simp only
    rw [hs, hf, sum_contrib, ← List.length_flatten, hjoin]
  · unfold executeTasksBatch
    rw [runBatches_eq, runBatches_eq, hs, hf]

/-- C4 witness: three items, batch size 2, an item-level failure and a
wholesale failure of the singleton batch, drained in reverse
completion order: totals still sum to 3 and the result equals the
submission-order result. -/
theorem batch_totals_order_invariant_witness :
    (runBatches (fun w => w.inp != "b") (fun b => decide (b.length = 1))
          [[⟨"c", "oc", "heic"⟩], [⟨"a", "oa", "heic"⟩, ⟨"b", "ob", "heic"⟩]]).success
        + (runBatches (fun w => w.inp != "b") (fun b => decide (b.length = 1))
            [[⟨"c", "oc", "heic"⟩], [⟨"a", "oa", "heic"⟩, ⟨"b", "ob", "heic"⟩]]).failed
      = 3 ∧
    runBatches (fun w => w.inp != "b") (fun b => decide (b.length = 1))
        [[⟨"c", "oc", "heic"⟩], [⟨"a", "oa", "heic"⟩, ⟨"b", "ob", "heic"⟩]]
      = executeTasksBatch 2 (fun w => w.inp != "b") (fun b => decide (b.length = 1))
          [⟨"a", "oa", "heic"⟩, ⟨"b", "ob", "heic"⟩, ⟨"c", "oc", "heic"⟩] :=
  batch_totals_order_invariant
    [⟨"a", "oa", "heic"⟩, ⟨"b", "ob", "heic"⟩, ⟨"c", "oc", "heic"⟩] 2 (by decide)
    (fun w => w.inp != "b") (fun b => decide (b.length = 1))
    [[⟨"c", "oc", "heic"⟩], [⟨"a", "oa", "heic"⟩, ⟨"b", "ob", "heic"⟩]] (by decide)

/-- C7: when the execution of a whole batch raises before returning
its counts, that batch contributes its full length to failed and
nothing to success, and every other batch of the run is still drained
and counted as without it. -/
theorem whole_batch_failure_counts (convOk : WorkItem → Bool)
    (batchRaises : List WorkItem → Bool) (pre post : List (List WorkItem))
    (b : List WorkItem) (hb : batchRaises b = true) :
    (runBatches convOk batchRaises (pre ++ b :: post)).failed
      = (runBatches convOk batchRaises (pre ++ post)).failed + b.length ∧
    (runBatches convOk batchRaises (pre ++ b :: post)).success
      = (runBatches convOk batchRaises (pre ++ post)).success := by
  have h1 : batchSuccessOf convOk batchRaises b = 0 := by
    unfold batchSuccessOf
    rw [if_pos hb]
  have h2 : batchFailedOf convOk batchRaises b = b.length := by
    unfold batchFailedOf
    rw [if_pos hb]
  rw [runBatches_eq, runBatches_eq]
  simp only [List.map_append, List.map_cons, List.sum_append, List.sum_cons, h1, h2]
  constructor <;> omega

/-- C7 witness: a two-item batch that raises wholesale, placed among
two healthy singleton batches, adds exactly 2 to failed and nothing
to success. -/
theorem whole_batch_failure_counts_witness :
    (runBatches (fun _ => true) (fun b => decide (b.length = 2))
          [[⟨"a", "oa", "heic"⟩], [⟨"b", "ob", "heic"⟩, ⟨"c", "oc", "heic"⟩],
            [⟨"d", "od", "heic"⟩]]).failed
      = (runBatches (fun _ => true) (fun b => decide (b.length = 2))
          [[⟨"a", "oa", "heic"⟩], [⟨"d", "od", "heic"⟩]]).failed + 2 ∧
    (runBatches (fun _ => true) (fun b => decide (b.length = 2))
          [[⟨"a", "oa", "heic"⟩], [⟨"b", "ob", "heic"⟩, ⟨"c", "oc", "heic"⟩],
            [⟨"d", "od", "heic"⟩]]).success
      = (runBatches (fun _ => true) (fun b => decide (b.length = 2))
          [[⟨"a", "oa", "heic"⟩], [⟨"d", "od", "heic"⟩]]).success :=
  whole_batch_failure_counts (fun _ => true) (fun b => decide (b.length = 2))
    [[⟨"a", "oa", "heic"⟩]] [[⟨"d", "od", "heic"⟩]]
    [⟨"b", "ob", "heic"⟩, ⟨"c", "oc", "heic"⟩] (by decide)

end JpgConverter
